import Mathlib

/-!
# Verification of the ioredis client core

A shallow embedding, in Lean 4, of the parts of the ioredis client that the
specification's claims are about:

* `SubscriptionSet` (src/lib/SubscriptionSet.ts)
* `Pipeline.exec` and `Pipeline.fillResult` (src/lib/Commander/Pipeline/index.ts)
* `Redis.internalSendCommand` and `Redis.connect` (src/lib/Commander/Redis/index.ts)
* the connection close handler (src/lib/Commander/Redis/connectors/types.ts)
* `ConnectionPool.reset` / `findOrCreate` (src/bin/commandGenerator/index.ts)

JavaScript objects used as string-keyed dictionaries of booleans are modelled
as `Finset String`; JavaScript numbers that matter to the claims are modelled
as `ℚ` (so that "number" vs "integer" distinctions remain expressible);
asynchronous event delivery (promise resolution, the `end` event of a
disconnected pool node) is modelled synchronously.
-/

namespace Ioredis

/-! ## SubscriptionSet (src/lib/SubscriptionSet.ts)

The source keeps a record `set = { subscribe: {}, psubscribe: {} }` mapping a
channel name to `true`; we model each of the two inner objects as a
`Finset String`.
-/

/-- The channel-set names handled by `SubscriptionSet`: `AddSet` is
`subscribe | psubscribe`, `DelSet` is `unsubscribe | punsubscribe`. -/
inductive SubKind
  | subscribe
  | psubscribe
  | unsubscribe
  | punsubscribe
deriving DecidableEq, Repr

/-- `mapSet` from src/lib/SubscriptionSet.ts: `unsubscribe` addresses the
`subscribe` set and `punsubscribe` addresses the `psubscribe` set. -/
def mapSet : SubKind → SubKind
  | .unsubscribe => .subscribe
  | .punsubscribe => .psubscribe
  | k => k

structure SubscriptionSet where
  subscribeSet : Finset String
  psubscribeSet : Finset String
deriving DecidableEq

namespace SubscriptionSet

/-- The freshly constructed `SubscriptionSet`: both inner objects empty. -/
def empty : SubscriptionSet := ⟨∅, ∅⟩

/-- `channels(set)`: the keys of `this.set[mapSet(set)]`.  `mapSet` only ever
returns `subscribe` or `psubscribe`, so the catch-all arm is the
`subscribe` entry. -/
def channels (s : SubscriptionSet) (k : SubKind) : Finset String :=
  match mapSet k with
  | .psubscribe => s.psubscribeSet
  | _ => s.subscribeSet

/-- `add(set, channel)`: `this.set[mapSet(set)][channel] = true`. -/
def add (s : SubscriptionSet) (k : SubKind) (c : String) : SubscriptionSet :=
  match mapSet k with
  | .psubscribe => { s with psubscribeSet := insert c s.psubscribeSet }
  | _ => { s with subscribeSet := insert c s.subscribeSet }

/-- `del(set, channel)`: `delete this.set[mapSet(set)][channel]`. -/
def del (s : SubscriptionSet) (k : SubKind) (c : String) : SubscriptionSet :=
  match mapSet k with
  | .psubscribe => { s with psubscribeSet := s.psubscribeSet.erase c }
  | _ => { s with subscribeSet := s.subscribeSet.erase c }

/-- `isEmpty()`: both `channels("subscribe")` and `channels("psubscribe")`
have length 0. -/
def isEmpty (s : SubscriptionSet) : Bool :=
  (s.channels .subscribe).card == 0 && (s.channels .psubscribe).card == 0

end SubscriptionSet

/-- A single mutation of a `SubscriptionSet`. -/
inductive SubOp
  | add (k : SubKind) (c : String)
  | del (k : SubKind) (c : String)
deriving DecidableEq, Repr

/-- Apply one operation. -/
def subStep (s : SubscriptionSet) : SubOp → SubscriptionSet
  | .add k c => s.add k c
  | .del k c => s.del k c

/-- Apply a sequence of operations to a fresh `SubscriptionSet`. -/
def applyOps (ops : List SubOp) : SubscriptionSet :=
  ops.foldl subStep SubscriptionSet.empty

/-- The operation is an `add` addressed (through `mapSet`) at the set `m`,
inserting exactly the channel `c`. -/
def isAddTo (m : SubKind) (c : String) : SubOp → Prop
  | .add k x => mapSet k = m ∧ x = c
  | .del _ _ => False

/-- The operation is a `del` addressed (through `mapSet`) at the set `m`,
removing exactly the channel `c`. -/
def isDelOf (m : SubKind) (c : String) : SubOp → Prop
  | .del k x => mapSet k = m ∧ x = c
  | .add _ _ => False

instance (m : SubKind) (c : String) (op : SubOp) : Decidable (isAddTo m c op) := by
  cases op <;> simp [isAddTo] <;> infer_instance

instance (m : SubKind) (c : String) (op : SubOp) : Decidable (isDelOf m c op) := by
  cases op <;> simp [isDelOf] <;> infer_instance

/-- The channel `c` was, at some point of the history `ops`, added under a
kind addressing the set `m`, and no later operation removed it from `m`. -/
def addedNotRemoved (m : SubKind) (c : String) (ops : List SubOp) : Prop :=
  ∃ l₁ op l₂, ops = l₁ ++ op :: l₂ ∧ isAddTo m c op ∧
    ∀ op' ∈ l₂, ¬ isDelOf m c op'

lemma addedNotRemoved_cons (m : SubKind) (c : String) (op : SubOp)
    (ops : List SubOp) :
    addedNotRemoved m c (op :: ops) ↔
      (isAddTo m c op ∧ ∀ op' ∈ ops, ¬ isDelOf m c op') ∨
        addedNotRemoved m c ops := by
  constructor
  · rintro ⟨l₁, a, l₂, heq, hadd, hdel⟩
    cases l₁ with
    | nil =>
      simp only [List.nil_append, List.cons.injEq] at heq
      obtain ⟨rfl, rfl⟩ := heq
      exact Or.inl ⟨hadd, hdel⟩
    | cons b l₁ =>
      simp only [List.cons_append, List.cons.injEq] at heq
      obtain ⟨rfl, rfl⟩ := heq
      exact Or.inr ⟨l₁, a, l₂, rfl, hadd, hdel⟩
  · rintro (⟨hadd, hdel⟩ | ⟨l₁, a, l₂, heq, hadd, hdel⟩)
    · exact ⟨[], op, ops, rfl, hadd, hdel⟩
    · exact ⟨op :: l₁, a, l₂, by rw [heq]; rfl, hadd, hdel⟩

lemma mem_channels_subStep (k : SubKind) (c : String) (s : SubscriptionSet)
    (op : SubOp) :
    c ∈ (subStep s op).channels k ↔
      isAddTo (mapSet k) c op ∨
        (c ∈ s.channels k ∧ ¬ isDelOf (mapSet k) c op) := by
  cases op with
  | add k' x =>
    cases k <;> cases k' <;>
      simp [subStep, SubscriptionSet.add, SubscriptionSet.channels, mapSet,
        isAddTo, isDelOf, Finset.mem_insert, eq_comm]
  | del k' x =>
    cases k <;> cases k' <;>
      simp [subStep, SubscriptionSet.del, SubscriptionSet.channels, mapSet,
        isAddTo, isDelOf, Finset.mem_erase, eq_comm, and_comm]

lemma mem_channels_foldl (k : SubKind) (c : String) (s : SubscriptionSet)
    (ops : List SubOp) :
    c ∈ (ops.foldl subStep s).channels k ↔
      addedNotRemoved (mapSet k) c ops ∨
        (c ∈ s.channels k ∧ ∀ op' ∈ ops, ¬ isDelOf (mapSet k) c op') := by
  induction ops generalizing s with
  | nil =>
    simp [addedNotRemoved]
  | cons op ops ih =>
    rw [List.foldl_cons, ih, mem_channels_subStep, addedNotRemoved_cons]
    simp only [List.mem_cons, forall_eq_or_imp]
    tauto

lemma mem_channels_empty (k : SubKind) (c : String) :
    c ∈ SubscriptionSet.empty.channels k ↔ False := by
  cases k <;> simp [SubscriptionSet.empty, SubscriptionSet.channels, mapSet]

/-- **C4.** For every sequence of `add`/`del` operations applied to a fresh
`SubscriptionSet`, `channels(kind)` holds exactly the channels added under
that kind (through the `mapSet` aliasing) and not subsequently removed;
`add`/`del` with `unsubscribe` mutate the `subscribe` set and with
`punsubscribe` the `psubscribe` set; and `isEmpty()` returns `true` iff both
the `subscribe` set and the `psubscribe` set are empty. -/
theorem subscriptionSet_correct (ops : List SubOp) (k : SubKind) (c : String)
    (s : SubscriptionSet) :
    (c ∈ (applyOps ops).channels k ↔ addedNotRemoved (mapSet k) c ops)
    ∧ s.add .unsubscribe c = s.add .subscribe c
    ∧ s.del .unsubscribe c = s.del .subscribe c
    ∧ s.add .punsubscribe c = s.add .psubscribe c
    ∧ s.del .punsubscribe c = s.del .psubscribe c
    ∧ (s.isEmpty = true ↔
        s.channels .subscribe = ∅ ∧ s.channels .psubscribe = ∅) := by
  refine ⟨?_, rfl, rfl, rfl, rfl, ?_⟩
  · rw [applyOps, mem_channels_foldl, mem_channels_empty]
    simp
  · simp [SubscriptionSet.isEmpty, Finset.card_eq_zero]

/-! ## Pipeline.exec (src/lib/Commander/Pipeline/index.ts, lines 221-256)

A queued command is modelled by the data `Pipeline.exec` consumes: its name,
what `getKeys()` returns, and the `isCustomCommand` / `ignore` flags.
Script (`evalsha`) preloading only delays `execPipeline`, so it is not
modelled; it changes neither the rejection decision nor what is written. -/

structure PCommand where
  name : String
  keys : List String
  isCustomCommand : Bool := false
  ignore : Bool := false
deriving DecidableEq, Repr

/-- Modelled from the spec: the slot-returning `generateMulti` of the external
`cluster-key-slot` package (absent from this repository).  §4.7: "a
`multi_slot` helper returns `-1` if any two keys hash to distinct slots";
otherwise it returns the common slot of the keys.  It is parametrised by the
key-to-slot hash. -/
def generateMulti (keySlot : String → ℕ) : List String → ℤ
  | [] => -1
  | k :: ks =>
    if ks.all fun x => keySlot x == keySlot k then (keySlot k : ℤ) else -1

/-- `(Math.random() * 16384) | 0` with `r` standing for the value returned by
`Math.random()`. -/
def randomSlot (r : ℚ) : ℤ := ⌊r * 16384⌋

/-- The error message of the cross-slot rejection. -/
def crossSlotMessage : String :=
  "All keys in the pipeline should belong to the same slot"

/-- The error message of the custom-command-in-cluster rejection. -/
def customCommandMessage : String :=
  "Sending custom commands in pipeline is not supported in Cluster mode."

/-- The state of a `Pipeline` that `exec()` reads. -/
structure PipelineState where
  queue : List PCommand
  transactions : ℕ
  isCluster : Bool
deriving DecidableEq, Repr

/-- "List of the first key for each command": `sampleKeys` of `exec()`. -/
def pipelineSampleKeys (queue : List PCommand) : List String :=
  queue.filterMap fun cmd => cmd.keys.head?

/-- What `exec()` produces. -/
inductive ExecOutcome
  | deferredToExecBuffer
  | rejected (message : String)
  | proceed (slot : Option ℤ)
deriving DecidableEq, Repr

/-- The observable result of one `exec()` call: whether `resolve([])` fired
for an empty queue, the outcome, and the commands serialised to a node
stream (in order). -/
structure ExecResult where
  resolvedEmpty : Bool
  outcome : ExecOutcome
  writes : List PCommand
deriving DecidableEq, Repr

/-- The `pipelineSlot` computed by `exec()` when the pipeline is in cluster
mode: `generateMulti` over the sample keys when some command provides keys,
a random slot otherwise. -/
def Pipeline.chosenSlot (keySlot : String → ℕ) (r : ℚ)
    (p : PipelineState) : Option ℤ :=
  if p.isCluster then
    let sk := pipelineSampleKeys p.queue
    if sk ≠ [] then some (generateMulti keySlot sk) else some (randomSlot r)
  else none

/-- `Pipeline.exec` (transcribed from src/lib/Commander/Pipeline/index.ts):
with open transactions it delegates to `execBuffer`; otherwise, in cluster
mode, a negative `generateMulti` over the sample keys rejects with the
cross-slot error, a custom command rejects with the custom-command error,
and only then is the batch serialised and written. -/
def Pipeline.exec (keySlot : String → ℕ) (r : ℚ)
    (p : PipelineState) : ExecResult :=
  if p.transactions > 0 then ⟨false, .deferredToExecBuffer, []⟩
  else
    let resolvedEmpty := p.queue.isEmpty
    let sk := pipelineSampleKeys p.queue
    if p.isCluster = true ∧ sk ≠ [] ∧ generateMulti keySlot sk < 0 then
      ⟨resolvedEmpty, .rejected crossSlotMessage, []⟩
    else if p.isCluster = true ∧ p.queue.any (·.isCustomCommand) then
      ⟨resolvedEmpty, .rejected customCommandMessage, []⟩
    else
      ⟨resolvedEmpty, .proceed (Pipeline.chosenSlot keySlot r p), p.queue⟩

lemma generateMulti_neg_of_ne (keySlot : String → ℕ) (ks : List String)
    (k₁ k₂ : String) (h₁ : k₁ ∈ ks) (h₂ : k₂ ∈ ks)
    (hne : keySlot k₁ ≠ keySlot k₂) :
    generateMulti keySlot ks < 0 := by
  cases ks with
  | nil => simp [generateMulti]
  | cons k tl =>
    rw [generateMulti]
    split
    · rename_i hall
      rw [List.all_eq_true] at hall
      have same : ∀ x ∈ k :: tl, keySlot x = keySlot k := by
        intro x hx
        rcases List.mem_cons.mp hx with rfl | hx
        · rfl
        · exact beq_iff_eq.mp (hall x hx)
      exact absurd ((same k₁ h₁).trans (same k₂ h₂).symm) hne
    · decide

lemma randomSlot_bounds (r : ℚ) (hr0 : 0 ≤ r) (hr1 : r < 1) :
    0 ≤ randomSlot r ∧ randomSlot r < 16384 := by
  constructor
  · exact Int.floor_nonneg.mpr (by positivity)
  · rw [randomSlot, Int.floor_lt]
    push_cast
    nlinarith

/-- **C1.** In cluster mode (no open transaction), if two commands of the
pipeline provide first keys hashing to distinct slots then `exec()` rejects
the whole pipeline with the cross-slot error and writes nothing to any
stream; if no command provides keys, the chosen pipeline slot is the random
slot, which lies in `[0, 16384)`. -/
theorem pipeline_exec_crossSlot_or_random (keySlot : String → ℕ) (r : ℚ)
    (p : PipelineState) (hc : p.isCluster = true) (ht : p.transactions = 0)
    (hr0 : 0 ≤ r) (hr1 : r < 1) :
    ((∃ c₁ ∈ p.queue, ∃ c₂ ∈ p.queue, ∃ k₁ k₂,
        c₁.keys.head? = some k₁ ∧ c₂.keys.head? = some k₂ ∧
          keySlot k₁ ≠ keySlot k₂) →
      Pipeline.exec keySlot r p =
        ⟨p.queue.isEmpty, .rejected crossSlotMessage, []⟩)
    ∧ ((∀ cmd ∈ p.queue, cmd.keys = []) →
      Pipeline.chosenSlot keySlot r p = some (randomSlot r) ∧
        0 ≤ randomSlot r ∧ randomSlot r < 16384) := by
  constructor
  · rintro ⟨c₁, hc₁, c₂, hc₂, k₁, k₂, hk₁, hk₂, hne⟩
    have hm₁ : k₁ ∈ pipelineSampleKeys p.queue :=
      List.mem_filterMap.mpr ⟨c₁, hc₁, hk₁⟩
    have hm₂ : k₂ ∈ pipelineSampleKeys p.queue :=
      List.mem_filterMap.mpr ⟨c₂, hc₂, hk₂⟩
    have hneg := generateMulti_neg_of_ne keySlot _ k₁ k₂ hm₁ hm₂ hne
    have hnenil : pipelineSampleKeys p.queue ≠ [] :=
      List.ne_nil_of_mem hm₁
    rw [Pipeline.exec]
    rw [if_neg (by omega), if_pos ⟨hc, hnenil, hneg⟩]
  · intro hnk
    have hsk : pipelineSampleKeys p.queue = [] := by
      rw [pipelineSampleKeys, List.filterMap_eq_nil_iff]
      intro cmd hcmd
      rw [hnk cmd hcmd]
      rfl
    refine ⟨?_, randomSlot_bounds r hr0 hr1⟩
    rw [Pipeline.chosenSlot, if_pos hc]
    simp [hsk]

/-- Witness for C1: a concrete two-command cluster pipeline whose first keys
hash to distinct slots under the length hash. -/
theorem pipeline_exec_crossSlot_witness :
    Pipeline.exec (fun k => k.length) 0
        ⟨[⟨"get", ["a"], false, false⟩, ⟨"get", ["bb"], false, false⟩],
          0, true⟩ =
      ⟨false, .rejected crossSlotMessage, []⟩ :=
  (pipeline_exec_crossSlot_or_random (fun k => k.length) 0
      ⟨[⟨"get", ["a"], false, false⟩, ⟨"get", ["bb"], false, false⟩], 0, true⟩
      rfl rfl (by norm_num) (by norm_num)).1
    ⟨⟨"get", ["a"], false, false⟩, by simp,
      ⟨"get", ["bb"], false, false⟩, by simp,
      "a", "bb", rfl, rfl, by decide⟩

/-! ## Pipeline.fillResult: `ignore`-compaction
(src/lib/Commander/Pipeline/index.ts, lines 178-186)

```
let ignoredCount = 0;
for (let i = 0; i < this._queue.length - ignoredCount; ++i) {
  if (this._queue[i + ignoredCount].ignore) ignoredCount += 1;
  this._result[i] = this._result[i + ignoredCount];
}
this.resolve(this._result.slice(0, this._result.length - ignoredCount));
```

The results array is modelled as `ℕ → Option α` (`none` = a JavaScript
out-of-bounds read yielding `undefined`); by the time this loop runs every
one of the `queue.length` positions has been filled.  The loop is embedded
with a fuel argument; `queue.length` units of fuel are enough because `i`
increases by one each iteration and the loop stops at the latest when
`i = queue.length`. -/

/-- `this._queue[p].ignore`: `false` past the end of the queue (`undefined`
is falsy). -/
def ignoreAt (queue : List PCommand) (p : ℕ) : Bool :=
  match queue[p]? with
  | some c => c.ignore
  | none => false

/-- The compaction loop; returns the mutated results array and the final
`ignoredCount`. -/
def compactLoop (queue : List PCommand) (res : ℕ → Option α) (i cnt : ℕ) :
    ℕ → (ℕ → Option α) × ℕ
  | 0 => (res, cnt)
  | fuel + 1 =>
    if i < queue.length - cnt then
      let cnt' := if ignoreAt queue (i + cnt) then cnt + 1 else cnt
      compactLoop queue (fun j => if j = i then res (i + cnt') else res j)
        (i + 1) cnt' fuel
    else (res, cnt)

/-- The compaction pass plus the final
`slice(0, this._result.length - ignoredCount)`. -/
def compactResults (queue : List PCommand) (res : ℕ → Option α) :
    List (Option α) :=
  let r := compactLoop queue res 0 0 queue.length
  (List.range (queue.length - r.2)).map r.1

/-- The positions of the non-ignored commands of `queue`, from position `p`
on, in order. -/
def goodIdx (queue : List PCommand) (p : ℕ) : List ℕ :=
  (List.range' p (queue.length - p)).filter fun q => !ignoreAt queue q

lemma ignoreAt_of_ge (queue : List PCommand) (p : ℕ)
    (h : queue.length ≤ p) : ignoreAt queue p = false := by
  rw [ignoreAt, List.getElem?_eq_none h]

lemma goodIdx_of_ge (queue : List PCommand) (p : ℕ)
    (h : queue.length ≤ p) : goodIdx queue p = [] := by
  rw [goodIdx, Nat.sub_eq_zero_of_le h]
  rfl

lemma goodIdx_step (queue : List PCommand) (p : ℕ)
    (h : p < queue.length) :
    goodIdx queue p =
      if ignoreAt queue p then goodIdx queue (p + 1)
      else p :: goodIdx queue (p + 1) := by
  rw [goodIdx, goodIdx, show queue.length - p = (queue.length - (p + 1)) + 1 by
    omega, List.range'_succ, List.filter_cons]
  cases hig : ignoreAt queue p <;> simp

lemma goodIdx_length_le (queue : List PCommand) (p : ℕ) :
    (goodIdx queue p).length ≤ queue.length - p := by
  calc (goodIdx queue p).length ≤ (List.range' p (queue.length - p)).length :=
        List.length_filter_le _ _
    _ = queue.length - p := List.length_range' ..

lemma goodIdx_mem_ge (queue : List PCommand) (p q : ℕ)
    (h : q ∈ goodIdx queue p) : p ≤ q := by
  have := List.mem_filter.mp h
  exact (List.mem_range'_1.mp this.1).1

lemma getD_mem_of_lt {l : List ℕ} {m : ℕ} (h : m < l.length) :
    l.getD m 0 ∈ l := by
  rw [List.getD_eq_getElem l 0 h]
  exact List.getElem_mem h

/-- Loop invariant of the compaction pass, under the hypothesis that no two
adjacent queue positions are both flagged `ignore`.  At state `(i, cnt)` the
loop has the next source position `p = i + cnt`; it (1) ends with
`ignoredCount` grown by the number of ignored positions from `p` on, (2)
leaves slots below `i` untouched, and (3) writes into slots `i, i+1, ...`
the results of the non-ignored positions from `p` on, in order. -/
lemma compactLoop_spec {α : Type} (queue : List PCommand)
    (hadj : ∀ p, ignoreAt queue p = true → ignoreAt queue (p + 1) = false) :
    ∀ (fuel i cnt : ℕ) (res : ℕ → Option α), queue.length - i ≤ fuel →
      (compactLoop queue res i cnt fuel).2 =
          cnt + ((queue.length - (i + cnt)) - (goodIdx queue (i + cnt)).length)
        ∧ (∀ j, j < i → (compactLoop queue res i cnt fuel).1 j = res j)
        ∧ (∀ m, m < (goodIdx queue (i + cnt)).length →
            (compactLoop queue res i cnt fuel).1 (i + m) =
              res ((goodIdx queue (i + cnt)).getD m 0)) := by
  intro fuel
  induction fuel with
  | zero =>
    intro i cnt res hfuel
    have hg : goodIdx queue (i + cnt) = [] := goodIdx_of_ge _ _ (by omega)
    rw [compactLoop, hg]
    refine ⟨by simp; omega, fun j hj => rfl, ?_⟩
    intro m hm
    simp at hm
  | succ fuel ih =>
    intro i cnt res hfuel
    rw [compactLoop]
    by_cases hlt : i < queue.length - cnt
    · rw [if_pos hlt]
      have hpn : i + cnt < queue.length := by omega
      by_cases hig : ignoreAt queue (i + cnt) = true
      · -- the inspected position is ignored: skip to position p + 2
        simp only [hig, if_true]
        obtain ⟨h1, h2, h3⟩ := ih (i + 1) (cnt + 1)
          (fun j => if j = i then res (i + (cnt + 1)) else res j) (by omega)
        rw [show i + 1 + (cnt + 1) = i + cnt + 2 by omega] at h1 h3
        have hstep : goodIdx queue (i + cnt) = goodIdx queue (i + cnt + 1) := by
          rw [goodIdx_step _ _ hpn, if_pos hig]
        have hnext : ignoreAt queue (i + cnt + 1) = false := hadj _ hig
        by_cases hin : i + cnt + 1 < queue.length
        · have hcons : goodIdx queue (i + cnt + 1) =
              (i + cnt + 1) :: goodIdx queue (i + cnt + 2) := by
            rw [goodIdx_step _ _ hin, hnext]
            simp
          have hlen2 := goodIdx_length_le queue (i + cnt + 2)
          refine ⟨?_, ?_, ?_⟩
          · rw [h1, hstep, hcons]
            simp only [List.length_cons]
            omega
          · intro j hj
            rw [h2 j (by omega)]
            simp [Nat.ne_of_lt hj]
          · intro m hm
            rw [hstep, hcons] at hm ⊢
            match m with
            | 0 =>
              have h := h2 i (by omega)
              simpa [show i + (cnt + 1) = i + cnt + 1 from by omega] using h
            | m + 1 =>
              simp only [List.length_cons, Nat.add_lt_add_iff_right] at hm
              rw [show i + (m + 1) = i + 1 + m by omega, h3 m hm,
                List.getD_cons_succ]
              have hge : i + cnt + 2 ≤ (goodIdx queue (i + cnt + 2)).getD m 0 :=
                goodIdx_mem_ge _ _ _ (getD_mem_of_lt hm)
              rw [if_neg (by omega)]
        · have hnil : goodIdx queue (i + cnt + 1) = [] :=
            goodIdx_of_ge _ _ (by omega)
          have hnil2 : goodIdx queue (i + cnt + 2) = [] :=
            goodIdx_of_ge _ _ (by omega)
          refine ⟨?_, ?_, ?_⟩
          · rw [h1, hstep, hnil, hnil2]
            simp
            omega
          · intro j hj
            rw [h2 j (by omega)]
            simp [Nat.ne_of_lt hj]
          · intro m hm
            rw [hstep, hnil] at hm
            simp at hm
      · -- the inspected position is kept: it is the next non-ignored one
        simp only [hig, Bool.false_eq_true, if_false]
        obtain ⟨h1, h2, h3⟩ := ih (i + 1) cnt
          (fun j => if j = i then res (i + cnt) else res j) (by omega)
        rw [show i + 1 + cnt = i + cnt + 1 by omega] at h1 h3
        have hcons : goodIdx queue (i + cnt) =
            (i + cnt) :: goodIdx queue (i + cnt + 1) := by
          rw [goodIdx_step _ _ hpn]
          simp [hig]
        have hlen1 := goodIdx_length_le queue (i + cnt + 1)
        refine ⟨?_, ?_, ?_⟩
        · rw [h1, hcons]
          simp only [List.length_cons]
          omega
        · intro j hj
          rw [h2 j (by omega)]
          simp [Nat.ne_of_lt hj]
        · intro m hm
          rw [hcons] at hm ⊢
          match m with
          | 0 =>
            have h := h2 i (by omega)
            simpa using h
          | m + 1 =>
            simp only [List.length_cons, Nat.add_lt_add_iff_right] at hm
            rw [show i + (m + 1) = i + 1 + m by omega, h3 m hm,
              List.getD_cons_succ]
            have hge : i + cnt + 1 ≤ (goodIdx queue (i + cnt + 1)).getD m 0 :=
              goodIdx_mem_ge _ _ _ (getD_mem_of_lt hm)
            rw [if_neg (by omega)]
    · rw [if_neg hlt]
      have hg : goodIdx queue (i + cnt) = [] := goodIdx_of_ge _ _ (by omega)
      rw [hg]
      refine ⟨by simp; omega, fun j hj => rfl, ?_⟩
      intro m hm
      simp at hm

lemma countP_ignoreAt (queue : List PCommand) :
    (List.range queue.length).countP (fun p => ignoreAt queue p) =
      queue.countP (·.ignore) := by
  induction queue with
  | nil => rfl
  | cons c queue ih =>
    rw [List.length_cons, List.range_succ_eq_map, List.countP_cons,
      List.countP_map]
    have hc : ((fun p => ignoreAt (c :: queue) p) ∘ Nat.succ) =
        fun p => ignoreAt queue p := by
      funext p
      simp [Function.comp, ignoreAt]
    rw [hc, ih, List.countP_cons]
    simp [ignoreAt]

lemma goodIdx_zero_length (queue : List PCommand) :
    (goodIdx queue 0).length =
      queue.length - queue.countP (·.ignore) := by
  rw [goodIdx, Nat.sub_zero, ← List.range_eq_range', ← countP_ignoreAt,
    ← List.countP_eq_length_filter]
  have h := List.length_eq_countP_add_countP
    (fun p => ignoreAt queue p) (List.range queue.length)
  rw [List.length_range] at h
  have e : (List.range queue.length).countP
        (fun a => decide ¬ ignoreAt queue a = true) =
      (List.range queue.length).countP fun q => !ignoreAt queue q := by
    apply List.countP_congr
    intro a _
    cases hq : ignoreAt queue a <;> simp [hq]
  omega

/-- **C8, amended.** Provided no two `ignore`-flagged commands sit at
adjacent queue positions (which the `ASKING`-insertion pass of `fillResult`
guarantees, since it inserts a single `ASKING` before a non-`asking`
command), the resolved results vector is exactly the results of the
non-ignored commands in submission order (`goodIdx` lists their positions in
order), and its length is the number of submitted commands minus the number
of commands flagged `ignore`. -/
theorem pipeline_compaction {α : Type} (queue : List PCommand)
    (res : ℕ → Option α)
    (hadj : ∀ p < queue.length,
      ignoreAt queue p = true → ignoreAt queue (p + 1) = false) :
    compactResults queue res = (goodIdx queue 0).map res
    ∧ (compactResults queue res).length =
        queue.length - queue.countP (·.ignore) := by
  have hadj' : ∀ p, ignoreAt queue p = true → ignoreAt queue (p + 1) = false := by
    intro p hp
    by_cases h : p < queue.length
    · exact hadj p h hp
    · rw [ignoreAt_of_ge _ _ (by omega)] at hp
      exact absurd hp (by simp)
  obtain ⟨h1, h2, h3⟩ :=
    compactLoop_spec queue hadj' queue.length 0 0 res (by omega)
  simp only [Nat.add_zero, Nat.zero_add, Nat.sub_zero] at h1 h3
  have hL := goodIdx_length_le queue 0
  rw [Nat.sub_zero] at hL
  have hmain : compactResults queue res = (goodIdx queue 0).map res := by
    rw [compactResults]
    have hlen : queue.length - (compactLoop queue res 0 0 queue.length).2 =
        (goodIdx queue 0).length := by omega
    apply List.ext_getElem
    · simp [hlen]
    · intro n h₁ h₂
      simp only [List.getElem_map, List.getElem_range]
      have hn : n < (goodIdx queue 0).length := by
        simp [hlen] at h₁
        exact h₁
      have := h3 n hn
      rw [List.getD_eq_getElem _ 0 hn] at this
      exact this
  refine ⟨hmain, ?_⟩
  rw [hmain, List.length_map, goodIdx_zero_length]

/-- A queue with two adjacent synthetic `ASKING` commands (`ignore = true`)
followed by one real command. -/
def adjacentIgnoreQueue : List PCommand :=
  [⟨"asking", [], false, true⟩, ⟨"asking", [], false, true⟩,
    ⟨"get", ["k"], false, false⟩]

/-- **C8, counterexample.** On `adjacentIgnoreQueue` the resolved vector has
length 2, not `3 - 2 = 1`: the compaction loop can skip only one ignored
entry per output slot, so the claim as stated fails on queues with adjacent
ignored commands. -/
theorem pipeline_compaction_counterexample :
    (compactResults adjacentIgnoreQueue fun i => some i).length ≠
      adjacentIgnoreQueue.length -
        adjacentIgnoreQueue.countP (·.ignore) := by decide

/-- A queue alternating a synthetic `ASKING` and a real command, as the
re-dispatch pass produces. -/
def askingGetQueue : List PCommand :=
  [⟨"asking", [], false, true⟩, ⟨"get", ["k"], false, false⟩,
    ⟨"asking", [], false, true⟩, ⟨"set", ["k"], false, false⟩]

/-- Witness for the amended C8 on a concrete ASKING-interleaved queue. -/
theorem pipeline_compaction_witness :
    (∀ p < askingGetQueue.length,
      ignoreAt askingGetQueue p = true →
        ignoreAt askingGetQueue (p + 1) = false)
    ∧ (compactResults askingGetQueue (fun i => some i) =
        (goodIdx askingGetQueue 0).map (fun i => some i)
      ∧ (compactResults askingGetQueue fun i => some i).length =
          askingGetQueue.length - askingGetQueue.countP (·.ignore)) :=
  ⟨by decide, pipeline_compaction askingGetQueue (fun i => some i) (by decide)⟩

/-! ## Pipeline.fillResult: cluster retriability analysis
(src/lib/Commander/Pipeline/index.ts, lines 77-175)

Once every reply has arrived, a cluster pipeline walks the parallel
`_queue` / `_result` arrays (modelled as a list of pairs: the command and the
error slot `this._result[i][0]`) computing `retriable` and `commonError`,
and, when both allow it, hands `commonError` to `Cluster#handleError`; the
batch is re-dispatched as a whole exactly when one of the `moved`, `ask`,
`tryagain`, `clusterDown`, `connectionClosed` handlers fires.  The
`exists(name) && hasFlag(name, "readonly")` lookup into the static
`redis-commands` table is the parameter `ro`. -/

/-- A reply error: the `name` and `message` the analysis compares. -/
structure RError where
  name : String
  message : String
deriving DecidableEq, Repr

/-- The tolerated `EXECABORT` message. -/
def execAbortMessage : String :=
  "EXECABORT Transaction discarded because of previous errors."

/-- Modelled from the spec: `CONNECTION_CLOSED_ERROR_MSG`, the
connection-closed sentinel message of the `utils` module (absent from this
repository). -/
def connectionClosedMessage : String := "Connection is closed."

/-- One position of the finished batch: the command and the error slot of
its result entry (`none` when the position succeeded). -/
abbrev BatchEntry := PCommand × Option RError

/-- The `multi`/`exec` transaction toggle of the analysis loop. -/
def nextTx (tx : Bool) (name : String) : Bool :=
  if name = "multi" then true else if name = "exec" then false else tx

/-- The transaction state after processing a prefix of the batch. -/
def txAfter (tx₀ : Bool) (entries : List BatchEntry) : Bool :=
  entries.foldl (fun b e => nextTx b e.1.name) tx₀

/-- State of the analysis loop.  `retriable = false` also encodes that the
loop has `break`-ed. -/
structure RetriState where
  retriable : Bool
  commonError : Option RError
  inTransaction : Bool
deriving DecidableEq, Repr

/-- One iteration of the analysis loop of `fillResult`. -/
def retriStep (ro : String → Bool) (s : RetriState) (e : BatchEntry) :
    RetriState :=
  if s.retriable = false then s
  else
    let tx := nextTx s.inTransaction e.1.name
    match e.2 with
    | some err =>
      if e.1.name = "exec" ∧ err.message = execAbortMessage then
        { s with inTransaction := tx }
      else
        match s.commonError with
        | none => { s with commonError := some err, inTransaction := tx }
        | some c =>
          if c.name ≠ err.name ∨ c.message ≠ err.message then
            { s with retriable := false, inTransaction := tx }
          else
            { s with inTransaction := tx }
    | none =>
      if tx = false then
        if ro e.1.name = false then
          { s with retriable := false, inTransaction := tx }
        else
          { s with inTransaction := tx }
      else
        { s with inTransaction := tx }

/-- The whole analysis loop, from `retriable = true`, no common error, and
the (falsy) undefined `inTransaction`. -/
def retriAnalysis (ro : String → Bool) (entries : List BatchEntry) :
    RetriState :=
  entries.foldl (retriStep ro) ⟨true, none, false⟩

/-- The remaining-redirections counter as `handleError` sees it. -/
def redirectionsLeft (maxR : ℕ) (left : Option ℕ) : ℕ :=
  match left with
  | none => maxR
  | some v => v - 1

/-- The handler `Cluster#handleError` fires. -/
inductive HandlerChoice
  | moved
  | ask
  | tryagain
  | clusterDown
  | connectionClosed
  | maxRedirections
  | defaults
deriving DecidableEq, Repr

/-- Modelled from the spec: `Cluster#handleError` (absent from this
repository; only the `IClusterErrorHandler` interface is in src).  §4.7:
the command carries a remaining-redirections counter initialised from the
configuration; exhausting it fails with `MaxRedirections`; otherwise the
error dispatches on its leading word `MOVED` / `ASK` / `TRYAGAIN` /
`CLUSTERDOWN`, or on the connection-closed sentinel, falling back to the
`defaults` handler. -/
def handleError (maxR : ℕ) (err : RError) (left : Option ℕ) :
    HandlerChoice × ℕ :=
  let leftNow := redirectionsLeft maxR left
  if leftNow = 0 then (.maxRedirections, leftNow)
  else
    let w := (err.message.splitOn " ").headD ""
    if w = "MOVED" then (.moved, leftNow)
    else if w = "ASK" then (.ask, leftNow)
    else if w = "TRYAGAIN" then (.tryagain, leftNow)
    else if w = "CLUSTERDOWN" then (.clusterDown, leftNow)
    else if err.message = connectionClosedMessage then
      (.connectionClosed, leftNow)
    else (.defaults, leftNow)

/-- The handlers under which `fillResult` returns without resolving (the
batch having been re-queued): everything except `maxRedirections` and
`defaults`, which set `matched = false`. -/
def redirectionRetryable : HandlerChoice → Bool
  | .moved => true
  | .ask => true
  | .tryagain => true
  | .clusterDown => true
  | .connectionClosed => true
  | .maxRedirections => false
  | .defaults => false

/-- The whole re-dispatch decision of `fillResult` on a finished cluster
batch: the analysis must end retriable with a common error, and
`handleError` must fire one of the retrying handlers. -/
def pipelineRedispatch (ro : String → Bool) (maxR : ℕ)
    (entries : List BatchEntry) (left : Option ℕ) : Bool :=
  let st := retriAnalysis ro entries
  match st.commonError, st.retriable with
  | some ce, true => redirectionRetryable (handleError maxR ce left).1
  | _, _ => false

/-- The error of a position that participates in the common-error
comparison: errored, and not the tolerated `EXECABORT` on `exec`. -/
def liveError (e : BatchEntry) : Option RError :=
  match e.2 with
  | some err =>
    if e.1.name = "exec" ∧ err.message = execAbortMessage then none
    else some err
  | none => none

/-- The participating errors of the batch, in order. -/
def liveErrors (entries : List BatchEntry) : List RError :=
  entries.filterMap liveError

/-- Two reply errors with identical name and message. -/
def errAgree (a b : RError) : Prop := a.name = b.name ∧ a.message = b.message

/-- Every two participating errors agree on name and message. -/
def pairwiseAgree (l : List RError) : Prop :=
  ∀ a ∈ l, ∀ b ∈ l, errAgree a b

/-- Every non-errored position lying outside a `MULTI`/`EXEC` transaction
(relative to the starting toggle `tx₀`) is a read-only command. -/
def readonlyOutsideTx (ro : String → Bool) (tx₀ : Bool)
    (entries : List BatchEntry) : Prop :=
  ∀ l₁ e l₂, entries = l₁ ++ e :: l₂ → e.2 = none →
    txAfter tx₀ (l₁ ++ [e]) = false → ro e.1.name = true

/-- The claim's retryable-kind test on an error: `MOVED`, `ASK`, `TRYAGAIN`,
`CLUSTERDOWN` by leading word, or the connection-closed sentinel. -/
def retryableKind (err : RError) : Bool :=
  let w := (err.message.splitOn " ").headD ""
  w == "MOVED" || w == "ASK" || w == "TRYAGAIN" || w == "CLUSTERDOWN" ||
    err.message == connectionClosedMessage

lemma retriStep_frozen (ro : String → Bool) (ce : Option RError) (tx : Bool)
    (e : BatchEntry) : retriStep ro ⟨false, ce, tx⟩ e = ⟨false, ce, tx⟩ := by
  rw [retriStep]
  simp

lemma retri_foldl_frozen (ro : String → Bool) (entries : List BatchEntry)
    (ce : Option RError) (tx : Bool) :
    entries.foldl (retriStep ro) ⟨false, ce, tx⟩ = ⟨false, ce, tx⟩ := by
  induction entries with
  | nil => rfl
  | cons e rest ih => rw [List.foldl_cons, retriStep_frozen, ih]

lemma readonlyOutsideTx_nil (ro : String → Bool) (tx₀ : Bool) :
    readonlyOutsideTx ro tx₀ [] := by
  intro l₁ e l₂ heq
  exact absurd heq (by simp)

lemma readonlyOutsideTx_cons (ro : String → Bool) (tx₀ : Bool)
    (e : BatchEntry) (rest : List BatchEntry) :
    readonlyOutsideTx ro tx₀ (e :: rest) ↔
      (e.2 = none → nextTx tx₀ e.1.name = false → ro e.1.name = true) ∧
        readonlyOutsideTx ro (nextTx tx₀ e.1.name) rest := by
  constructor
  · intro h
    refine ⟨?_, ?_⟩
    · intro hnone htx
      exact h [] e rest rfl hnone (by simpa [txAfter] using htx)
    · intro l₁ x l₂ heq hnone htx
      refine h (e :: l₁) x l₂ (by rw [heq]; rfl) hnone ?_
      simpa [txAfter] using htx
  · rintro ⟨h0, hrest⟩ l₁ x l₂ heq hnone htx
    cases l₁ with
    | nil =>
      simp only [List.nil_append, List.cons.injEq] at heq
      obtain ⟨rfl, rfl⟩ := heq
      exact h0 hnone (by simpa [txAfter] using htx)
    | cons y l₁ =>
      simp only [List.cons_append, List.cons.injEq] at heq
      obtain ⟨rfl, rfl⟩ := heq
      exact hrest l₁ x l₂ rfl hnone (by simpa [txAfter] using htx)

lemma errAgree_symm {a b : RError} (h : errAgree a b) : errAgree b a :=
  ⟨h.1.symm, h.2.symm⟩

lemma errAgree_trans {a b c : RError} (h1 : errAgree a b)
    (h2 : errAgree b c) : errAgree a c :=
  ⟨h1.1.trans h2.1, h1.2.trans h2.2⟩

lemma pairwiseAgree_toList (ce : Option RError) : pairwiseAgree ce.toList := by
  cases ce <;> simp [pairwiseAgree, errAgree]

lemma pairwiseAgree_cons_cons (c err : RError) (l : List RError) :
    pairwiseAgree (c :: err :: l) ↔
      errAgree c err ∧ pairwiseAgree (c :: l) := by
  constructor
  · intro h
    refine ⟨h c (by simp) err (by simp), ?_⟩
    intro a ha b hb
    rcases List.mem_cons.mp ha with rfl | ha <;>
      rcases List.mem_cons.mp hb with rfl | hb <;>
        exact h _ (by simp [*]) _ (by simp [*])
  · rintro ⟨hce, h⟩ a ha b hb
    simp only [List.mem_cons] at ha hb
    have hagree : ∀ x, x = c ∨ x ∈ l → errAgree c x := by
      intro x hx
      rcases hx with rfl | hx
      · exact ⟨rfl, rfl⟩
      · exact h c (by simp) x (by simp [hx])
    rcases ha with rfl | rfl | ha <;> rcases hb with rfl | rfl | hb
    · exact ⟨rfl, rfl⟩
    · exact hce
    · exact hagree b (Or.inr hb)
    · exact errAgree_symm hce
    · exact ⟨rfl, rfl⟩
    · exact errAgree_trans (errAgree_symm hce) (hagree b (Or.inr hb))
    · exact errAgree_symm (hagree a (Or.inr ha))
    · exact errAgree_trans (errAgree_symm (hagree a (Or.inr ha))) hce
    · exact h a (by simp [ha]) b (by simp [hb])

/-- Characterisation of the analysis loop from an arbitrary carried state:
it ends retriable exactly when the carried common error (if any) and all
participating errors pairwise agree, and every non-errored position outside
a transaction is read-only; in that case the final common error is the
carried one, or else the first participating error. -/
lemma retri_foldl_char (ro : String → Bool) :
    ∀ (entries : List BatchEntry) (ce₀ : Option RError) (tx₀ : Bool),
      ((entries.foldl (retriStep ro) ⟨true, ce₀, tx₀⟩).retriable = true ↔
        pairwiseAgree (ce₀.toList ++ liveErrors entries) ∧
          readonlyOutsideTx ro tx₀ entries)
      ∧ ((entries.foldl (retriStep ro) ⟨true, ce₀, tx₀⟩).retriable = true →
          (entries.foldl (retriStep ro) ⟨true, ce₀, tx₀⟩).commonError =
            (ce₀.toList ++ liveErrors entries).head?) := by
  intro entries
  induction entries with
  | nil =>
    intro ce₀ tx₀
    refine ⟨?_, ?_⟩
    · simpa [liveErrors] using
        ⟨pairwiseAgree_toList ce₀, readonlyOutsideTx_nil ro tx₀⟩
    · intro _
      cases ce₀ <;> rfl
  | cons e rest ih =>
    intro ce₀ tx₀
    obtain ⟨cmd, herr⟩ := e
    rw [List.foldl_cons]
    cases herr with
    | some err =>
      by_cases hskip : cmd.name = "exec" ∧ err.message = execAbortMessage
      · -- tolerated EXECABORT on exec: skipped
        have hstep : retriStep ro ⟨true, ce₀, tx₀⟩ (cmd, some err) =
            ⟨true, ce₀, nextTx tx₀ cmd.name⟩ := by
          rw [retriStep]
          simp [hskip]
        have hlv : liveErrors ((cmd, some err) :: rest) = liveErrors rest := by
          simp [liveErrors, liveError, hskip]
        obtain ⟨ih1, ih2⟩ := ih ce₀ (nextTx tx₀ cmd.name)
        rw [hstep]
        refine ⟨?_, ?_⟩
        · rw [ih1, hlv, readonlyOutsideTx_cons]
          simp
        · intro h
          rw [ih2 h, hlv]
      · cases ce₀ with
        | none =>
          -- first participating error: recorded as the common error
          have hstep : retriStep ro ⟨true, none, tx₀⟩ (cmd, some err) =
              ⟨true, some err, nextTx tx₀ cmd.name⟩ := by
            rw [retriStep]
            simp [hskip]
          have hlv : liveErrors ((cmd, some err) :: rest) =
              err :: liveErrors rest := by
            simp [liveErrors, liveError, hskip]
          obtain ⟨ih1, ih2⟩ := ih (some err) (nextTx tx₀ cmd.name)
          rw [hstep]
          refine ⟨?_, ?_⟩
          · rw [ih1, hlv, readonlyOutsideTx_cons]
            simp [Option.toList]
          · intro h
            rw [ih2 h, hlv]
            rfl
        | some c =>
          by_cases hagree : c.name = err.name ∧ c.message = err.message
          · -- matching error: carried along
            have hstep : retriStep ro ⟨true, some c, tx₀⟩ (cmd, some err) =
                ⟨true, some c, nextTx tx₀ cmd.name⟩ := by
              rw [retriStep]
              simp [hskip, hagree.1, hagree.2]
            have hlv : liveErrors ((cmd, some err) :: rest) =
                err :: liveErrors rest := by
              simp [liveErrors, liveError, hskip]
            obtain ⟨ih1, ih2⟩ := ih (some c) (nextTx tx₀ cmd.name)
            rw [hstep]
            refine ⟨?_, ?_⟩
            · rw [ih1, hlv, readonlyOutsideTx_cons]
              simp only [Option.toList, List.cons_append, List.nil_append,
                pairwiseAgree_cons_cons]
              have : errAgree c err := ⟨hagree.1, hagree.2⟩
              tauto
            · intro h
              rw [ih2 h, hlv]
              rfl
          · -- diverging error: retriable is cleared and the loop breaks
            have hstep : retriStep ro ⟨true, some c, tx₀⟩ (cmd, some err) =
                ⟨false, some c, nextTx tx₀ cmd.name⟩ := by
              rw [retriStep]
              rw [Decidable.not_and_iff_or_not] at hagree
              rcases hagree with h | h <;> simp [hskip, h]
            have hlv : liveErrors ((cmd, some err) :: rest) =
                err :: liveErrors rest := by
              simp [liveErrors, liveError, hskip]
            rw [hstep, retri_foldl_frozen]
            refine ⟨?_, by simp⟩
            simp only [Bool.false_eq_true, false_iff, hlv]
            rintro ⟨hpa, -⟩
            exact hagree ⟨(hpa c (by simp) err (by simp)).1,
              (hpa c (by simp) err (by simp)).2⟩
    | none =>
      have hlv : liveErrors ((cmd, none) :: rest) = liveErrors rest := by
        simp [liveErrors, liveError]
      by_cases htx : nextTx tx₀ cmd.name = false
      · by_cases hro : ro cmd.name = true
        · have hstep : retriStep ro ⟨true, ce₀, tx₀⟩ (cmd, none) =
              ⟨true, ce₀, nextTx tx₀ cmd.name⟩ := by
            rw [retriStep]
            simp [htx, hro]
          obtain ⟨ih1, ih2⟩ := ih ce₀ (nextTx tx₀ cmd.name)
          rw [hstep]
          refine ⟨?_, ?_⟩
          · rw [ih1, hlv, readonlyOutsideTx_cons]
            simp [hro]
          · intro h
            rw [ih2 h, hlv]
        · have hstep : retriStep ro ⟨true, ce₀, tx₀⟩ (cmd, none) =
              ⟨false, ce₀, nextTx tx₀ cmd.name⟩ := by
            rw [retriStep]
            simp only [Bool.not_eq_true] at hro
            simp [htx, hro]
          rw [hstep, retri_foldl_frozen]
          refine ⟨?_, by simp⟩
          simp only [Bool.false_eq_true, false_iff]
          rintro ⟨-, hrot⟩
          rw [readonlyOutsideTx_cons] at hrot
          exact hro (hrot.1 rfl htx)
      · have hstep : retriStep ro ⟨true, ce₀, tx₀⟩ (cmd, none) =
            ⟨true, ce₀, nextTx tx₀ cmd.name⟩ := by
          rw [retriStep]
          simp [htx]
        obtain ⟨ih1, ih2⟩ := ih ce₀ (nextTx tx₀ cmd.name)
        rw [hstep]
        refine ⟨?_, ?_⟩
        · rw [ih1, hlv, readonlyOutsideTx_cons]
          simp [htx]
        · intro h
          rw [ih2 h, hlv]

lemma redirectionRetryable_handleError (maxR : ℕ) (err : RError)
    (left : Option ℕ) :
    redirectionRetryable (handleError maxR err left).1 = true ↔
      retryableKind err = true ∧ redirectionsLeft maxR left ≠ 0 := by
  rw [handleError, retryableKind]
  set w := (err.message.splitOn " ").headD "" with hw
  by_cases h0 : redirectionsLeft maxR left = 0
  · simp [h0, redirectionRetryable]
  · by_cases hm : w = "MOVED"
    · simp [h0, hm, redirectionRetryable]
    · by_cases ha : w = "ASK"
      · simp [h0, hm, ha, redirectionRetryable]
      · by_cases ht : w = "TRYAGAIN"
        · simp [h0, hm, ha, ht, redirectionRetryable]
        · by_cases hc : w = "CLUSTERDOWN"
          · simp [h0, hm, ha, ht, hc, redirectionRetryable]
          · by_cases hcc : err.message = connectionClosedMessage
            · simp [h0, hm, ha, ht, hc, hcc, redirectionRetryable]
            · simp [h0, hm, ha, ht, hc, hcc, redirectionRetryable]

lemma retryableKind_congr {a b : RError} (h : errAgree a b) :
    retryableKind a = retryableKind b := by
  rw [retryableKind, retryableKind, h.2]

/-- **C3.** A completed cluster pipeline batch is re-dispatched as a whole
iff: every errored position carries an error with identical name and message
(an EXECABORT error on an `exec` command being skipped), every non-error
position lying outside a MULTI/EXEC transaction is read-only per the static
command table, at least one common error exists, and that common error is of
kind MOVED, ASK, TRYAGAIN, CLUSTERDOWN, or connection-closed, with
redirections remaining. -/
theorem pipeline_redispatch_iff (ro : String → Bool) (maxR : ℕ)
    (left : Option ℕ) (entries : List BatchEntry) :
    pipelineRedispatch ro maxR entries left = true ↔
      pairwiseAgree (liveErrors entries)
        ∧ readonlyOutsideTx ro false entries
        ∧ liveErrors entries ≠ []
        ∧ (∀ err ∈ liveErrors entries, retryableKind err = true)
        ∧ redirectionsLeft maxR left ≠ 0 := by
  have h1 : (retriAnalysis ro entries).retriable = true ↔
      pairwiseAgree (liveErrors entries) ∧
        readonlyOutsideTx ro false entries :=
    (retri_foldl_char ro entries none false).1
  have h2 : (retriAnalysis ro entries).retriable = true →
      (retriAnalysis ro entries).commonError = (liveErrors entries).head? :=
    (retri_foldl_char ro entries none false).2
  rw [pipelineRedispatch]
  cases hrt : (retriAnalysis ro entries).retriable with
  | false =>
    rw [hrt] at h1
    constructor
    · intro h
      exfalso
      revert h
      cases hce : (retriAnalysis ro entries).commonError <;> simp [hce]
    · rintro ⟨hpa, hro, -⟩
      exact absurd (h1.mpr ⟨hpa, hro⟩) (by simp)
  | true =>
    obtain ⟨hpa, hro⟩ := h1.mp hrt
    have hce := h2 hrt
    cases hlv : liveErrors entries with
    | nil =>
      rw [hlv] at hce
      rw [List.head?_nil] at hce
      rw [hce]
      constructor
      · intro h
        simp at h
      · rintro ⟨-, -, hne, -⟩
        exact absurd rfl hne
    | cons err tl =>
      rw [hlv] at hce
      rw [List.head?_cons] at hce
      rw [hce]
      show redirectionRetryable (handleError maxR err left).1 = true ↔
        pairwiseAgree (err :: tl) ∧ readonlyOutsideTx ro false entries ∧
          err :: tl ≠ [] ∧ (∀ e ∈ err :: tl, retryableKind e = true) ∧
          redirectionsLeft maxR left ≠ 0
      rw [redirectionRetryable_handleError]
      have hpa' : pairwiseAgree (err :: tl) := by
        rw [← hlv]
        exact hpa
      constructor
      · rintro ⟨hrk, hl0⟩
        refine ⟨hpa', hro, by simp, ?_, hl0⟩
        intro x hx
        rw [← retryableKind_congr (hpa' err (by simp) x hx)]
        exact hrk
      · rintro ⟨-, -, -, hall, hl0⟩
        exact ⟨hall err (by simp), hl0⟩

/-! ## Redis: internalSendCommand, connect, closeHandler
(src/lib/Commander/Redis/index.ts and
src/lib/Commander/Redis/connectors/types.ts)

The connection state collects every field those code paths read or write.
JavaScript numbers that the claims care about (`retryStrategy` returns,
`maxRetriesPerRequest`) are `ℚ`-or-`ℤ`-valued so the "number vs integer"
distinction stays expressible; `condition.subscriber` (either `false` or a
`SubscriptionSet`) is modelled by its truthiness. -/

/-- `ConnectionStatus` of src/lib/types.ts (`endS`/`closeS`/`connectS`
stand for `"end"`/`"close"`/`"connect"`, which are Lean keywords or clash
with other names). -/
inductive ConnStatus
  | endS
  | closeS
  | wait
  | connecting
  | connectS
  | ready
  | reconnecting
  | disconnecting
  | monitoring
deriving DecidableEq, Repr

/-- A command as `internalSendCommand` sees it: the (lowercased) name, and
the parsed first argument when it is an integer (what
`isInt(command.args[0])` / `toInt(command.args[0])` yield for `select`). -/
structure RCommand where
  name : String
  intArg : Option ℤ := none
deriving DecidableEq, Repr

/-- An `IRedisQueueItem`: the command and the `condition.select` captured
when it was queued (the `stream` member is not modelled: the claims never
read it). -/
structure QueueItem where
  command : RCommand
  select : ℤ
deriving DecidableEq, Repr

/-- The connection state read and written by `connect`,
`internalSendCommand` and the close handler. -/
structure RedisState where
  status : ConnStatus
  subscriber : Bool
  conditionSelect : ℤ
  conditionAuth : Option String
  prevCondition : Option (ℤ × Option String × Bool)
  streamExists : Bool
  streamWritable : Bool
  streamEnded : Bool
  enableOfflineQueue : Bool
  offlineQueue : List QueueItem
  commandQueue : List QueueItem
  prevCommandQueue : Option (List QueueItem)
  manuallyClosing : Bool
  retryAttempts : ℕ
  reconnectTimeoutSet : Bool
  optionsDb : ℤ
  optionsPassword : Option String
  retryStrategy : Option (ℕ → Option ℚ)
  maxRetriesPerRequest : Option ℤ

/-- Modelled from the spec:
`Command.checkFlag("VALID_IN_SUBSCRIBER_MODE", name)` — the flag table lives
in `lib/command.ts`, absent from this repository.  §4.4: "only `subscribe`,
`unsubscribe`, `psubscribe`, `punsubscribe`, `ping`, `quit` are valid". -/
def validInSubscriberMode (name : String) : Bool :=
  name == "subscribe" || name == "unsubscribe" || name == "psubscribe" ||
    name == "punsubscribe" || name == "ping" || name == "quit"

/-- The subscriber-mode rejection message. -/
def subscriberModeMessage : String :=
  "Connection in subscriber mode, only subscriber commands may be used"

/-- The offline-queue-disabled rejection message (the apostrophe is the
escape `\x27`). -/
def notWritableMessage : String :=
  "Stream isn\x27t writeable and enableOfflineQueue options is false"

/-- The synchronous prefix of `Redis.connect` (src lines 164-184): the
already-connecting guard, the `connecting` transition and the condition
reset.  The rest of `connect` (connector handshake, stream wiring) is
asynchronous and outside every claim. -/
def connectPrefix (s : RedisState) : RedisState × Option String :=
  if s.status = .connecting ∨ s.status = .connectS ∨ s.status = .ready then
    (s, some "Redis is already connecting/connected")
  else
    ({ s with
        status := .connecting,
        conditionSelect := s.optionsDb,
        conditionAuth := s.optionsPassword,
        subscriber := false }, none)

/-- How one `internalSendCommand` call ends. -/
inductive SendResult
  | rejected (message : String)
  | resolvedOKDisconnect
  | written
  | queuedOffline
deriving DecidableEq, Repr

/-- `internalSendCommand` after the `end` and subscriber-mode gates
(src lines 571-654): the writability computation, the offline-queue-disabled
rejection, the `quit` special case (which calls `disconnect()` — modelled by
its synchronous effects `manuallyClosing := true` and clearing the reconnect
timer, the transport teardown being the connector's side), the write or
offline-queue push, and the `select` condition update.  `loadingFlag name`
stands for `commands.hasFlag(name, "loading")` of the external
redis-commands table; `willDisc name` for
`Command.checkFlag("WILL_DISCONNECT", name)`; `streamArg` for a `stream`
argument having been passed (pipelines do). -/
def internalSendCommandPostSubscriber (loadingFlag willDisc : String → Bool)
    (s : RedisState) (c : RCommand) (streamArg : Bool) :
    RedisState × SendResult :=
  let writable0 : Bool :=
    decide (s.status = .ready) ||
      (!streamArg && decide (s.status = .connectS) && loadingFlag c.name)
  let writable : Bool :=
    if s.streamExists = false then false
    else if s.streamWritable = false then false
    else if s.streamEnded = true then false
    else writable0
  if writable = false ∧ s.enableOfflineQueue = false then
    (s, .rejected notWritableMessage)
  else if writable = false ∧ c.name = "quit" ∧ s.offlineQueue = [] then
    ({ s with manuallyClosing := true, reconnectTimeoutSet := false },
      .resolvedOKDisconnect)
  else
    let s1 :=
      if writable = true then
        { s with
            commandQueue := s.commandQueue ++ [⟨c, s.conditionSelect⟩],
            manuallyClosing := s.manuallyClosing || willDisc c.name }
      else
        { s with offlineQueue := s.offlineQueue ++ [⟨c, s.conditionSelect⟩] }
    let s2 :=
      match c.intArg with
      | some db =>
        if c.name = "select" ∧ s1.conditionSelect ≠ db then
          { s1 with conditionSelect := db }
        else s1
      | none => s1
    (s2, if writable then .written else .queuedOffline)

/-- `Redis.internalSendCommand` (src lines 548-655): the lazy-connect kick,
the closed-connection rejection, the subscriber-mode gate, then the rest. -/
def internalSendCommand (loadingFlag willDisc : String → Bool)
    (s : RedisState) (c : RCommand) (streamArg : Bool) :
    RedisState × SendResult :=
  let s := if s.status = .wait then (connectPrefix s).1 else s
  if s.status = .endS then
    (s, .rejected connectionClosedMessage)
  else if s.subscriber = true ∧ validInSubscriberMode c.name = false then
    (s, .rejected subscriberModeMessage)
  else
    internalSendCommandPostSubscriber loadingFlag willDisc s c streamArg

/-- A concrete idle connection state used by witnesses. -/
def baseState : RedisState where
  status := .ready
  subscriber := false
  conditionSelect := 0
  conditionAuth := none
  prevCondition := none
  streamExists := true
  streamWritable := true
  streamEnded := false
  enableOfflineQueue := true
  offlineQueue := []
  commandQueue := []
  prevCommandQueue := none
  manuallyClosing := false
  retryAttempts := 0
  reconnectTimeoutSet := false
  optionsDb := 0
  optionsPassword := none
  retryStrategy := none
  maxRetriesPerRequest := none

/-- **C2.** On a connection in subscriber mode (status neither `wait`, which
resets the condition, nor `end`, which rejects with the closed-connection
error first), a command without the `VALID_IN_SUBSCRIBER_MODE` flag is
rejected with the subscriber-mode error, the state — in particular both
queues — left untouched and nothing written; a flagged command proceeds
exactly as the post-gate code would. -/
theorem subscriber_mode_gate (loadingFlag willDisc : String → Bool)
    (s : RedisState) (c : RCommand) (streamArg : Bool)
    (hw : s.status ≠ .wait) (he : s.status ≠ .endS)
    (hsub : s.subscriber = true) :
    (validInSubscriberMode c.name = false →
      internalSendCommand loadingFlag willDisc s c streamArg =
        (s, .rejected subscriberModeMessage))
    ∧ (validInSubscriberMode c.name = true →
      internalSendCommand loadingFlag willDisc s c streamArg =
        internalSendCommandPostSubscriber loadingFlag willDisc s c streamArg) := by
  constructor
  · intro hflag
    rw [internalSendCommand]
    simp only [if_neg hw, if_neg he]
    rw [if_pos ⟨hsub, hflag⟩]
  · intro hflag
    rw [internalSendCommand]
    simp only [if_neg hw, if_neg he]
    rw [if_neg fun hcon => by rw [hflag] at hcon; exact absurd hcon.2 (by decide)]

/-- Witness for C2: a publish on a ready, subscribed connection. -/
theorem subscriber_mode_gate_witness :
    ({ baseState with subscriber := true } : RedisState).status ≠ .wait
    ∧ ({ baseState with subscriber := true } : RedisState).status ≠ .endS
    ∧ ({ baseState with subscriber := true } : RedisState).subscriber = true
    ∧ validInSubscriberMode "publish" = false
    ∧ internalSendCommand (fun _ => false) (fun _ => false)
        { baseState with subscriber := true } ⟨"publish", none⟩ false =
        ({ baseState with subscriber := true },
          .rejected subscriberModeMessage) :=
  ⟨by decide, by decide, rfl, by decide,
    (subscriber_mode_gate (fun _ => false) (fun _ => false)
        { baseState with subscriber := true } ⟨"publish", none⟩ false
        (by decide) (by decide) rfl).1 (by decide)⟩

/-- **C9.** A `quit` submitted while the stream is not writable and the
offline queue is empty resolves with OK and disconnects (modelled by
`manuallyClosing := true` and the cleared reconnect timer), instead of being
rejected or queued — also when `enableOfflineQueue` is true. -/
theorem quit_unwritable_resolves (loadingFlag willDisc : String → Bool)
    (s : RedisState)
    (hw : s.status ≠ .wait) (he : s.status ≠ .endS)
    (hns : s.streamWritable = false)
    (hq : s.offlineQueue = [])
    (hoq : s.enableOfflineQueue = true) :
    internalSendCommand loadingFlag willDisc s ⟨"quit", none⟩ false =
      ({ s with manuallyClosing := true, reconnectTimeoutSet := false },
        .resolvedOKDisconnect) := by
  rw [internalSendCommand]
  simp only [if_neg hw, if_neg he]
  rw [if_neg fun hcon =>
    absurd hcon.2 (by decide : validInSubscriberMode "quit" ≠ false)]
  rw [internalSendCommandPostSubscriber]
  have hwr : (if s.streamExists = false then false
      else if s.streamWritable = false then false
      else if s.streamEnded = true then false
      else decide (s.status = .ready) ||
        (!false && decide (s.status = .connectS) && loadingFlag "quit")) =
      false := by
    by_cases hse : s.streamExists = false <;> simp [hse, hns]
  simp only [hwr, hq, hoq]
  simp

/-- Witness for C9: `quit` on a reconnecting connection with a dead stream
and an empty offline queue. -/
theorem quit_unwritable_resolves_witness :
    ({ baseState with status := .reconnecting, streamWritable := false } :
        RedisState).streamWritable = false
    ∧ ({ baseState with status := .reconnecting, streamWritable := false } :
        RedisState).offlineQueue = []
    ∧ ({ baseState with status := .reconnecting, streamWritable := false } :
        RedisState).enableOfflineQueue = true
    ∧ internalSendCommand (fun _ => false) (fun _ => false)
        { baseState with status := .reconnecting, streamWritable := false }
        ⟨"quit", none⟩ false =
        ({ baseState with
            status := .reconnecting
            streamWritable := false
            manuallyClosing := true
            reconnectTimeoutSet := false },
          .resolvedOKDisconnect) :=
  ⟨rfl, rfl, rfl,
    quit_unwritable_resolves (fun _ => false) (fun _ => false)
      { baseState with status := .reconnecting, streamWritable := false }
      (by decide) (by decide) rfl rfl rfl⟩

/-- **C10.** `connect()` called while the status is `connecting`, `connect`
or `ready` rejects with "Redis is already connecting/connected" and leaves
the state unchanged; from any other status it moves to `connecting` and
resets the condition snapshot to the configured db, password and
non-subscriber state. -/
theorem redis_connect_gate (s : RedisState) :
    ((s.status = .connecting ∨ s.status = .connectS ∨ s.status = .ready) →
      connectPrefix s = (s, some "Redis is already connecting/connected"))
    ∧ ((s.status ≠ .connecting ∧ s.status ≠ .connectS ∧ s.status ≠ .ready) →
      connectPrefix s =
        ({ s with
            status := .connecting,
            conditionSelect := s.optionsDb,
            conditionAuth := s.optionsPassword,
            subscriber := false }, none)) := by
  constructor
  · intro h
    rw [connectPrefix, if_pos h]
  · rintro ⟨h1, h2, h3⟩
    rw [connectPrefix, if_neg (by tauto)]

/-! ### The close handler
(src/lib/Commander/Redis/connectors/types.ts, lines 86-143) -/

/-- An error a queue flush rejects commands with: its `name`, `message`,
and whether it is an `AbortError` (src/unnamed/part_003:
`MaxRetriesPerRequestError extends AbortError`). -/
structure FlushError where
  name : String
  message : String
  isAbort : Bool
deriving DecidableEq, Repr

/-- `new Error(CONNECTION_CLOSED_ERROR_MSG)`. -/
def connectionClosedError : FlushError :=
  ⟨"Error", connectionClosedMessage, false⟩

/-- `new MaxRetriesPerRequestError(maxRetriesPerRequest)`
(src/unnamed/part_003). -/
def maxRetriesError (m : ℤ) : FlushError where
  name := "MaxRetriesPerRequestError"
  message := "Reached the max retries per request limit (which is " ++
    toString m ++ "). Refer to \"maxRetriesPerRequest\" option for details."
  isAbort := true

/-- `Redis.flushQueue` with both queue options on (src lines 355-384):
every offline-queue command is rejected first, then every command-queue
command, with the given error; both queues end empty. -/
def flushQueue (s : RedisState) (e : FlushError) :
    RedisState × List (RCommand × FlushError) :=
  ({ s with offlineQueue := [], commandQueue := [] },
    (s.offlineQueue ++ s.commandQueue).map fun it => (it.command, e))

/-- What one close-handler invocation produces: the new state, the queued
commands rejected (in order, with their errors), and the reconnect delay
when one was scheduled. -/
structure CloseResult where
  state : RedisState
  rejections : List (RCommand × FlushError)
  reconnectDelay : Option ℚ

/-- The first lines of the close handler: `setStatus("close")`, snapshot
`prevCondition` if unset, snapshot `prevCommandQueue` if commands are in
flight. -/
def closePrep (s : RedisState) : RedisState :=
  let s := { s with status := .closeS }
  let s :=
    if s.prevCondition = none then
      { s with
          prevCondition := some (s.conditionSelect, s.conditionAuth, s.subscriber) }
    else s
  if s.commandQueue ≠ [] then
    { s with prevCommandQueue := some s.commandQueue }
  else s

/-- The branching part of the close handler: the manually-closing `close()`,
the `retryStrategy` function/number checks (each `close()` sets status `end`
and flushes both queues with the connection-closed error), the
`reconnecting` transition with its timer, and the `maxRetriesPerRequest`
flush.  `retryStrategy = none` models "not a function"; a `none` return
models a non-number return. -/
def closeMain (s : RedisState) : CloseResult :=
  if s.manuallyClosing = true then
    let r := flushQueue { s with manuallyClosing := false, status := .endS }
      connectionClosedError
    ⟨r.1, r.2, none⟩
  else
    match s.retryStrategy with
    | none =>
      let r := flushQueue { s with status := .endS } connectionClosedError
      ⟨r.1, r.2, none⟩
    | some strat =>
      let s := { s with retryAttempts := s.retryAttempts + 1 }
      match strat s.retryAttempts with
      | none =>
        let r := flushQueue { s with status := .endS } connectionClosedError
        ⟨r.1, r.2, none⟩
      | some retryDelay =>
        let s := { s with
          status := .reconnecting
          reconnectTimeoutSet := true }
        match s.maxRetriesPerRequest with
        | some m =>
          if m < 0 then ⟨s, [], some retryDelay⟩
          else if (s.retryAttempts : ℤ) % (m + 1) = 0 then
            let r := flushQueue s (maxRetriesError m)
            ⟨r.1, r.2, some retryDelay⟩
          else ⟨s, [], some retryDelay⟩
        | none => ⟨s, [], some retryDelay⟩

/-- `eventHandler.closeHandler` as one function. -/
def closeHandler (s : RedisState) : CloseResult :=
  closeMain (closePrep s)

lemma closePrep_fields (s : RedisState) :
    (closePrep s).manuallyClosing = s.manuallyClosing
    ∧ (closePrep s).retryStrategy = s.retryStrategy
    ∧ (closePrep s).retryAttempts = s.retryAttempts
    ∧ (closePrep s).maxRetriesPerRequest = s.maxRetriesPerRequest
    ∧ (closePrep s).offlineQueue = s.offlineQueue
    ∧ (closePrep s).commandQueue = s.commandQueue
    ∧ (closePrep s).status = .closeS := by
  rw [closePrep]
  by_cases hpc : s.prevCondition = none <;>
    by_cases hcq : s.commandQueue ≠ [] <;> simp [hpc, hcq]

/-- **C5.** On a close that schedules a reconnect (the retry strategy
returned a number), if `maxRetriesPerRequest` is a non-negative number and
the incremented retry counter is `0 mod (cap + 1)`, both queues are flushed,
every queued command rejected with the `MaxRetriesPerRequestError` (an
`AbortError`); otherwise — cap not a number, negative, or non-zero
remainder — this step leaves the queues untouched and rejects nothing. -/
theorem close_max_retries_flush (s : RedisState) (strat : ℕ → Option ℚ)
    (d : ℚ) (hman : s.manuallyClosing = false)
    (hstrat : s.retryStrategy = some strat)
    (hd : strat (s.retryAttempts + 1) = some d) :
    (∀ m : ℤ, s.maxRetriesPerRequest = some m →
      ((0 ≤ m ∧ ((s.retryAttempts : ℤ) + 1) % (m + 1) = 0) →
        (closeHandler s).state.offlineQueue = []
        ∧ (closeHandler s).state.commandQueue = []
        ∧ (closeHandler s).rejections =
            (s.offlineQueue ++ s.commandQueue).map
              (fun it => (it.command, maxRetriesError m))
        ∧ (maxRetriesError m).isAbort = true)
      ∧ ((m < 0 ∨ ((s.retryAttempts : ℤ) + 1) % (m + 1) ≠ 0) →
        (closeHandler s).state.offlineQueue = s.offlineQueue
        ∧ (closeHandler s).state.commandQueue = s.commandQueue
        ∧ (closeHandler s).rejections = []))
    ∧ (s.maxRetriesPerRequest = none →
      (closeHandler s).state.offlineQueue = s.offlineQueue
      ∧ (closeHandler s).state.commandQueue = s.commandQueue
      ∧ (closeHandler s).rejections = []) := by
  obtain ⟨f1, f2, f3, f4, f5, f6, f7⟩ := closePrep_fields s
  simp only [closeHandler]
  have hman' : (closePrep s).manuallyClosing = false := f1.trans hman
  have hstrat' : (closePrep s).retryStrategy = some strat := f2.trans hstrat
  have hd' : strat ((closePrep s).retryAttempts + 1) = some d := by
    rw [f3]
    exact hd
  have hrem : (((closePrep s).retryAttempts + 1 : ℕ) : ℤ) =
      (s.retryAttempts : ℤ) + 1 := by
    rw [f3]
    push_cast
    ring
  constructor
  · intro m hm
    have hm' : (closePrep s).maxRetriesPerRequest = some m := f4.trans hm
    constructor
    · rintro ⟨hm0, hr0⟩
      simp only [closeMain, hman', hstrat', hd', hm', flushQueue,
        Bool.false_eq_true, if_false, hrem]
      rw [if_neg (by omega), if_pos hr0]
      simp [f5, f6, maxRetriesError]
    · intro hcase
      by_cases hneg : m < 0
      · simp only [closeMain, hman', hstrat', hd', hm', flushQueue,
          Bool.false_eq_true, if_false, hrem]
        rw [if_pos hneg]
        simp [f5, f6]
      · have hr0 : ((s.retryAttempts : ℤ) + 1) % (m + 1) ≠ 0 := by
          rcases hcase with h | h
          · exact absurd h hneg
          · exact h
        simp only [closeMain, hman', hstrat', hd', hm', flushQueue,
          Bool.false_eq_true, if_false, hrem]
        rw [if_neg hneg, if_neg hr0]
        simp [f5, f6]
  · intro hm
    have hm' : (closePrep s).maxRetriesPerRequest = none := f4.trans hm
    simp only [closeMain, hman', hstrat', hd', hm', Bool.false_eq_true,
      if_false]
    simp [f5, f6]

/-- Witness for C5: one queued command, `maxRetriesPerRequest = 0`, first
close: the incremented counter is `1 ≡ 0 (mod 1)`, so the queue is flushed
with the abort error. -/
theorem close_max_retries_flush_witness :
    (({ baseState with
        commandQueue := [⟨⟨"get", none⟩, 0⟩]
        retryStrategy := some fun _ => some 1
        maxRetriesPerRequest := some 0 } : RedisState).manuallyClosing = false
      ∧ (0 : ℤ) ≤ 0 ∧ ((0 : ℤ) + 1) % (0 + 1) = 0)
    ∧ ((closeHandler { baseState with
        commandQueue := [⟨⟨"get", none⟩, 0⟩]
        retryStrategy := some fun _ => some 1
        maxRetriesPerRequest := some 0 }).state.commandQueue = []
      ∧ (closeHandler { baseState with
          commandQueue := [⟨⟨"get", none⟩, 0⟩]
          retryStrategy := some fun _ => some 1
          maxRetriesPerRequest := some 0 }).rejections =
        [(⟨"get", none⟩, maxRetriesError 0)]) := by
  have h := (close_max_retries_flush
    { baseState with
        commandQueue := [⟨⟨"get", none⟩, 0⟩]
        retryStrategy := some fun _ => some 1
        maxRetriesPerRequest := some 0 }
    (fun _ => some 1) 1 rfl rfl rfl).1 0 rfl
  have h2 := h.1 ⟨le_refl 0, by decide⟩
  exact ⟨⟨rfl, le_refl 0, by decide⟩, h2.2.1, h2.2.2.1⟩

/-- **C6, amended** ("non-integer" becomes "non-number": the code checks
`typeof retryDelay !== "number"`, so a non-integer number such as 2.5 still
reconnects).  A close without manual closing transitions to `end` — failing
every in-flight and offline command with the connection-closed error —
exactly when the retry strategy is absent or returns a non-number; when it
returns a number the connection transitions to `reconnecting` instead. -/
theorem close_end_iff (s : RedisState) (hman : s.manuallyClosing = false) :
    ((closeHandler s).state.status = .endS ↔
      (s.retryStrategy = none ∨
        ∃ g, s.retryStrategy = some g ∧ g (s.retryAttempts + 1) = none))
    ∧ ((closeHandler s).state.status = .endS →
      (closeHandler s).state.offlineQueue = []
      ∧ (closeHandler s).state.commandQueue = []
      ∧ (closeHandler s).rejections =
          (s.offlineQueue ++ s.commandQueue).map
            fun it => (it.command, connectionClosedError))
    ∧ (∀ g d, s.retryStrategy = some g → g (s.retryAttempts + 1) = some d →
      (closeHandler s).state.status = .reconnecting) := by
  obtain ⟨f1, f2, f3, f4, f5, f6, f7⟩ := closePrep_fields s
  simp only [closeHandler]
  have hman' : (closePrep s).manuallyClosing = false := f1.trans hman
  cases hrs : s.retryStrategy with
  | none =>
    have hrs' : (closePrep s).retryStrategy = none := f2.trans hrs
    simp only [closeMain, hman', hrs', flushQueue, Bool.false_eq_true,
      if_false]
    refine ⟨by simp, ?_, ?_⟩
    · intro
      simp [f5, f6]
    · intro g d hg
      exact absurd hg (by simp)
  | some g =>
    have hrs' : (closePrep s).retryStrategy = some g := f2.trans hrs
    cases hret : g (s.retryAttempts + 1) with
    | none =>
      have hret' : g ((closePrep s).retryAttempts + 1) = none := by
        rw [f3]
        exact hret
      simp only [closeMain, hman', hrs', hret', flushQueue,
        Bool.false_eq_true, if_false]
      refine ⟨?_, ?_, ?_⟩
      · simp only [true_iff]
        exact Or.inr ⟨g, rfl, hret⟩
      · intro
        simp [f5, f6]
      · intro g' d hg' hd'
        rw [Option.some.injEq] at hg'
        rw [← hg'] at hd'
        rw [hret] at hd'
        exact absurd hd' (by simp)
    | some d =>
      have hret' : g ((closePrep s).retryAttempts + 1) = some d := by
        rw [f3]
        exact hret
      have hstatus : (closeMain (closePrep s)).state.status = .reconnecting := by
        simp only [closeMain, hman', hrs', hret', flushQueue,
          Bool.false_eq_true, if_false]
        split
        · split_ifs <;> rfl
        · rfl
      refine ⟨?_, ?_, ?_⟩
      · rw [hstatus]
        simp only [iff_false, reduceCtorEq, false_iff]
        rintro (h | ⟨g', hg', hd'⟩)
        · exact absurd h (by simp)
        · rw [Option.some.injEq] at hg'
          rw [← hg'] at hd'
          rw [hret] at hd'
          exact absurd hd' (by simp)
      · intro hend
        rw [hstatus] at hend
        exact absurd hend (by simp)
      · intro g' d' hg' hd'
        exact hstatus

/-- Witness for the amended C6: with no retry strategy the close ends the
connection and rejects the queued command with the connection-closed error;
with a number-returning strategy it reconnects. -/
theorem close_end_iff_witness :
    (({ baseState with offlineQueue := [⟨⟨"set", none⟩, 0⟩] } :
        RedisState).manuallyClosing = false
      ∧ (closeHandler { baseState with
          offlineQueue := [⟨⟨"set", none⟩, 0⟩] }).state.status = .endS
      ∧ (closeHandler { baseState with
          offlineQueue := [⟨⟨"set", none⟩, 0⟩] }).rejections =
        [(⟨"set", none⟩, connectionClosedError)])
    ∧ (closeHandler { baseState with
        retryStrategy := some fun _ => some 1 }).state.status =
        .reconnecting := by
  have h1 := close_end_iff { baseState with
    offlineQueue := [⟨⟨"set", none⟩, 0⟩] } rfl
  have hend := h1.1.mpr (Or.inl rfl)
  have h2 := close_end_iff { baseState with
    retryStrategy := some fun _ => some 1 } rfl
  exact ⟨⟨rfl, hend, (h1.2.1 hend).2.2⟩,
    h2.2.2 (fun _ => some 1) 1 rfl rfl⟩

/-- A connection whose retry strategy returns the non-integer number `5/2`. -/
def nonIntegerRetryState : RedisState :=
  { baseState with retryStrategy := some fun _ => some (5 / 2 : ℚ) }

/-- **C6, counterexample.** The retry strategy returns `5/2`, a number that
is not an integer; the claim as stated says the connection ends, but the
code checks only `typeof !== "number"`, so it transitions to
`reconnecting`. -/
theorem close_end_nonint_counterexample :
    nonIntegerRetryState.manuallyClosing = false
    ∧ (∃ g, nonIntegerRetryState.retryStrategy = some g ∧
        g (nonIntegerRetryState.retryAttempts + 1) = some (5 / 2 : ℚ))
    ∧ (∀ n : ℤ, ((5 : ℚ) / 2) ≠ (n : ℚ))
    ∧ (closeHandler nonIntegerRetryState).state.status = .reconnecting
    ∧ ConnStatus.reconnecting ≠ ConnStatus.endS := by
  refine ⟨rfl, ⟨_, rfl, rfl⟩, ?_, ?_, by simp⟩
  · intro n h
    have h2 : ((2 * n : ℤ) : ℚ) = ((5 : ℤ) : ℚ) := by
      push_cast
      linarith [h]
    have h3 : (2 * n : ℤ) = 5 := Int.cast_injective h2
    omega
  · have h := close_end_iff nonIntegerRetryState rfl
    exact h.2.2 (fun _ => some (5 / 2 : ℚ)) (5 / 2 : ℚ) rfl rfl

/-- Witness for C10: `connect()` on a ready connection rejects; on a `wait`
connection it transitions to `connecting` and resets the condition. -/
theorem redis_connect_gate_witness :
    (baseState.status = .connecting ∨ baseState.status = .connectS ∨
        baseState.status = .ready)
    ∧ connectPrefix baseState =
        (baseState, some "Redis is already connecting/connected")
    ∧ ({ baseState with status := .wait } : RedisState).status ≠ .connecting
    ∧ connectPrefix { baseState with status := .wait } =
        ({ baseState with
            status := .connecting,
            conditionSelect := baseState.optionsDb,
            conditionAuth := baseState.optionsPassword,
            subscriber := false }, none) :=
  ⟨Or.inr (Or.inr rfl),
    (redis_connect_gate baseState).1 (Or.inr (Or.inr rfl)),
    by decide,
    (redis_connect_gate { baseState with status := .wait }).2
      ⟨by decide, by decide, by decide⟩⟩

/-! ## ConnectionPool (src/bin/commandGenerator/index.ts, lines 333-447)

A node's `end` event deletes it from the pool; the source fires it
asynchronously after `disconnect()`, modelled here as the synchronous
removal inside `reset`.  `getNodeKey(node)` is carried as the node's `key`
field (a canonical host:port string). -/

/-- A node handed to the pool: its node key and the truthiness of
`node.readOnly`. -/
structure PoolNode where
  key : String
  readOnly : Bool
deriving DecidableEq, Repr

/-- The pool: insertion-ordered connections keyed by node key; the Bool is
the connection's current role (`options.readOnly`, `true` = slave).  The
`master`/`slave` views of the source are the entries whose role is
false/true; `all` holds every entry. -/
structure PoolState where
  nodes : List (String × Bool)
deriving DecidableEq, Repr

/-- The keys of the `all` view. -/
def PoolState.allKeys (p : PoolState) : List String := p.nodes.map (·.1)

/-- Flip the stored role of `key`. -/
def setRole (nodes : List (String × Bool)) (key : String) (ro : Bool) :
    List (String × Bool) :=
  nodes.map fun kv => if kv.1 = key then (kv.1, ro) else kv

/-- `ConnectionPool.findOrCreate`: reuse the keyed connection, flipping its
role when it differs (the background `READONLY`/`READWRITE` command is the
connection's side), or create and register it.  The `specifiedOptions`
merge only shapes the constructed Redis options and is not modelled. -/
def ConnectionPool.findOrCreate (p : PoolState) (key : String)
    (readOnly : Bool) : PoolState :=
  match p.nodes.find? fun kv => kv.1 == key with
  | some kv =>
    if kv.2 ≠ readOnly then ⟨setRole p.nodes key readOnly⟩ else p
  | none => ⟨p.nodes ++ [(key, readOnly)]⟩

/-- The key set of the `newNodes` object built by `reset`: keys in
first-occurrence order. -/
def newNodesKeys (ns : List PoolNode) : List String :=
  ns.foldl (fun acc n => if acc.contains n.key then acc else acc ++ [n.key]) []

/-- The value stored under `k` in `newNodes`: the last node written. -/
def newNodesVal (ns : List PoolNode) (k : String) : Bool :=
  ((ns.reverse.find? fun n => n.key == k).map (·.readOnly)).getD false

/-- The `newNodes` object as an ordered association list. -/
def newNodesList (ns : List PoolNode) : List (String × Bool) :=
  (newNodesKeys ns).map fun k => (k, newNodesVal ns k)

/-- `ConnectionPool.reset`: disconnect (and, through the `end` event, drop)
the connections whose key is absent from the new node set, then
`findOrCreate` every new node. -/
def ConnectionPool.reset (p : PoolState) (ns : List PoolNode) : PoolState :=
  let keep : PoolState :=
    ⟨p.nodes.filter fun kv => (newNodesKeys ns).contains kv.1⟩
  (newNodesList ns).foldl
    (fun acc n => ConnectionPool.findOrCreate acc n.1 n.2) keep

lemma contains_iff_mem (l : List String) (k : String) :
    l.contains k = true ↔ k ∈ l := by
  simp [List.contains_iff_exists_mem_beq]

lemma mem_newNodesKeys (ns : List PoolNode) (k : String) :
    k ∈ newNodesKeys ns ↔ k ∈ ns.map (·.key) := by
  have main : ∀ (l : List PoolNode) (acc : List String),
      k ∈ l.foldl (fun acc n =>
          if acc.contains n.key then acc else acc ++ [n.key]) acc ↔
        k ∈ acc ∨ k ∈ l.map (·.key) := by
    intro l
    induction l with
    | nil => simp
    | cons n l ih =>
      intro acc
      rw [List.foldl_cons, ih]
      by_cases hc : acc.contains n.key = true
      · rw [if_pos hc]
        rw [contains_iff_mem] at hc
        simp only [List.map_cons, List.mem_cons]
        constructor
        · rintro (h | h) <;> tauto
        · rintro (h | rfl | h) <;> tauto
      · rw [if_neg hc]
        simp only [List.mem_append, List.mem_singleton, List.map_cons,
          List.mem_cons]
        tauto
  rw [newNodesKeys, main]
  simp

lemma allKeys_setRole (nodes : List (String × Bool)) (key : String)
    (ro : Bool) : (setRole nodes key ro).map (·.1) = nodes.map (·.1) := by
  rw [setRole, List.map_map]
  apply List.map_congr_left
  intro kv _
  by_cases h : kv.1 = key <;> simp [h]

lemma findOrCreate_mem (q : PoolState) (key : String) (ro : Bool)
    (k : String) :
    k ∈ (ConnectionPool.findOrCreate q key ro).allKeys ↔
      k ∈ q.allKeys ∨ k = key := by
  rw [ConnectionPool.findOrCreate]
  cases hf : q.nodes.find? (fun kv => kv.1 == key) with
  | some kv =>
    have hkey : kv.1 = key := by
      have := List.find?_some hf
      simpa using this
    have hmem : key ∈ q.allKeys := by
      rw [PoolState.allKeys, List.mem_map]
      exact ⟨kv, List.mem_of_find?_eq_some hf, hkey⟩
    show k ∈ (if kv.2 ≠ ro then PoolState.mk (setRole q.nodes key ro)
        else q).allKeys ↔ k ∈ q.allKeys ∨ k = key
    by_cases hro : kv.2 ≠ ro
    · rw [if_pos hro]
      show k ∈ (setRole q.nodes key ro).map (·.1) ↔ _
      rw [allKeys_setRole]
      constructor
      · exact fun h => Or.inl h
      · rintro (h | rfl)
        · exact h
        · exact hmem
    · rw [if_neg hro]
      constructor
      · exact fun h => Or.inl h
      · rintro (h | rfl)
        · exact h
        · exact hmem
  | none =>
    show k ∈ (q.nodes ++ [(key, ro)]).map (·.1) ↔ k ∈ q.allKeys ∨ k = key
    rw [PoolState.allKeys, List.map_append]
    simp

lemma foldl_findOrCreate_mem (L : List (String × Bool)) (q : PoolState)
    (k : String) :
    k ∈ (L.foldl (fun acc n =>
        ConnectionPool.findOrCreate acc n.1 n.2) q).allKeys ↔
      k ∈ q.allKeys ∨ k ∈ L.map (·.1) := by
  induction L generalizing q with
  | nil => simp
  | cons n L ih =>
    rw [List.foldl_cons, ih, findOrCreate_mem]
    simp only [List.map_cons, List.mem_cons]
    tauto

lemma findOrCreate_allKeys_of_mem (q : PoolState) (key : String) (ro : Bool)
    (hk : key ∈ q.allKeys) :
    (ConnectionPool.findOrCreate q key ro).allKeys = q.allKeys := by
  rw [ConnectionPool.findOrCreate]
  cases hf : q.nodes.find? (fun kv => kv.1 == key) with
  | some kv =>
    show (if kv.2 ≠ ro then PoolState.mk (setRole q.nodes key ro)
        else q).allKeys = q.allKeys
    by_cases hro : kv.2 ≠ ro
    · rw [if_pos hro]
      show (setRole q.nodes key ro).map (·.1) = _
      rw [allKeys_setRole]
      rfl
    · rw [if_neg hro]
  | none =>
    exfalso
    rw [PoolState.allKeys, List.mem_map] at hk
    obtain ⟨kv, hkv, hkey⟩ := hk
    have : (q.nodes.find? fun kv => kv.1 == key).isSome := by
      rw [List.find?_isSome]
      exact ⟨kv, hkv, by simp [hkey]⟩
    rw [hf] at this
    exact absurd this (by simp)

lemma foldl_findOrCreate_allKeys (L : List (String × Bool)) (q : PoolState)
    (h : ∀ n ∈ L, n.1 ∈ q.allKeys) :
    (L.foldl (fun acc n =>
        ConnectionPool.findOrCreate acc n.1 n.2) q).allKeys = q.allKeys := by
  induction L generalizing q with
  | nil => rfl
  | cons n L ih =>
    rw [List.foldl_cons]
    have hn := findOrCreate_allKeys_of_mem q n.1 n.2 (h n (by simp))
    rw [ih _ (fun x hx => by rw [hn]; exact h x (List.mem_cons_of_mem _ hx)),
      hn]

lemma map_fst_newNodesList (ns : List PoolNode) :
    (newNodesList ns).map (·.1) = newNodesKeys ns := by
  rw [newNodesList, List.map_map]
  have hcomp : ((fun x : String × Bool => x.1) ∘
      fun k => (k, newNodesVal ns k)) = id := by
    funext k
    rfl
  rw [hcomp, List.map_id]

/-- **C7.** After `reset(nodes)`, the `all` view holds exactly the node keys
of the provided nodes (absent keys removed, new keys created); and a second
`reset` with the same node list leaves the pool's key list unchanged. -/
theorem pool_reset_membership (p : PoolState) (ns : List PoolNode)
    (k : String) :
    (k ∈ (ConnectionPool.reset p ns).allKeys ↔ k ∈ ns.map (·.key))
    ∧ (ConnectionPool.reset (ConnectionPool.reset p ns) ns).allKeys =
        (ConnectionPool.reset p ns).allKeys := by
  have hkeep : ∀ (q : PoolState) (x : String),
      x ∈ (PoolState.mk (q.nodes.filter
          fun kv => (newNodesKeys ns).contains kv.1)).allKeys →
        x ∈ newNodesKeys ns := by
    intro q x hx
    rw [PoolState.allKeys, List.mem_map] at hx
    obtain ⟨kv, hkv, rfl⟩ := hx
    have := (List.mem_filter.mp hkv).2
    exact (contains_iff_mem _ _).mp this
  have hmem : ∀ (x : String),
      x ∈ (ConnectionPool.reset p ns).allKeys ↔ x ∈ ns.map (·.key) := by
    intro x
    rw [ConnectionPool.reset, foldl_findOrCreate_mem, map_fst_newNodesList]
    constructor
    · rintro (h | h)
      · exact (mem_newNodesKeys ns x).mp (hkeep p x h)
      · exact (mem_newNodesKeys ns x).mp h
    · intro h
      exact Or.inr ((mem_newNodesKeys ns x).mpr h)
  refine ⟨hmem k, ?_⟩
  rw [show ConnectionPool.reset (ConnectionPool.reset p ns) ns =
      (newNodesList ns).foldl
        (fun acc n => ConnectionPool.findOrCreate acc n.1 n.2)
        ⟨(ConnectionPool.reset p ns).nodes.filter
          fun kv => (newNodesKeys ns).contains kv.1⟩ from rfl]
  have hall : (ConnectionPool.reset p ns).nodes.filter
      (fun kv => (newNodesKeys ns).contains kv.1) =
      (ConnectionPool.reset p ns).nodes := by
    apply List.filter_eq_self.mpr
    intro kv hkv
    rw [contains_iff_mem]
    apply (mem_newNodesKeys ns kv.1).mpr
    apply (hmem kv.1).mp
    rw [PoolState.allKeys, List.mem_map]
    exact ⟨kv, hkv, rfl⟩
  rw [hall]
  apply foldl_findOrCreate_allKeys
  intro n hn
  apply (hmem n.1).mpr
  apply (mem_newNodesKeys ns n.1).mp
  have h1 : n.1 ∈ (newNodesList ns).map (·.1) := List.mem_map_of_mem _ hn
  rw [map_fst_newNodesList] at h1
  exact h1

end Ioredis
